import Mathlib

set_option maxHeartbeats 1000000
set_option maxRecDepth 100000

/-! Verification development for the Kiambu house hunter bot (bot_runner.py).
The favorites table of SQLite is modelled as a list of records in insertion
order, the in-memory catalog as a list of listings, and the handlers as pure
functions from inputs and state to new state plus rendered actions. -/

/-- Models Python str.strip over a character list: remove leading and trailing
whitespace characters. -/
def pyStripChars (cs : List Char) : List Char :=
  ((cs.dropWhile Char.isWhitespace).reverse.dropWhile Char.isWhitespace).reverse

/-- Models Python str.strip on a string. -/
def pyStrip (s : String) : String := String.mk (pyStripChars s.data)

/-- Models Python str.lower (ASCII range, which covers every string the source
compares after lowering). -/
def pyLower (s : String) : String := String.mk (s.data.map Char.toLower)

/-- Numeric value of a decimal digit run, most significant digit first. -/
def digitsToNat (ds : List Char) : Nat := ds.foldl (fun a c => a * 10 + (c.toNat - 48)) 0

/-- Consume an optional leading sign; returns whether the sign was minus, and
the remaining characters. -/
def parseSign (cs : List Char) : Bool × List Char :=
  match cs with
  | [] => (false, [])
  | c :: rest =>
    if c = '-' then (true, rest)
    else if c = '+' then (false, rest)
    else (false, c :: rest)

/-- Parse the mantissa of a decimal literal: integer part digits, optional dot,
fraction part digits. Fails when no digit at all is present. -/
def parseMantissa (cs : List Char) : Option (List Char × List Char × List Char) :=
  let p := cs.span Char.isDigit
  match p.2 with
  | '.' :: r2 =>
    let q := r2.span Char.isDigit
    if p.1.isEmpty && q.1.isEmpty then none else some (p.1, q.1, q.2)
  | _ => if p.1.isEmpty then none else some (p.1, [], p.2)

/-- Parse the digits of an exponent after the e marker, with optional sign; the
whole remainder must be consumed. -/
def parseExpDigits (r : List Char) : Option Int :=
  let sr := parseSign r
  let q := sr.2.span Char.isDigit
  if q.1.isEmpty || !q.2.isEmpty then none
  else some (if sr.1 then -(digitsToNat q.1 : Int) else (digitsToNat q.1 : Int))

/-- Parse an optional exponent part of a decimal literal. -/
def parseExp : List Char → Option Int
  | [] => some 0
  | 'e' :: r => parseExpDigits r
  | 'E' :: r => parseExpDigits r
  | _ => none

/-- Models int(float(s)) for a Python string s: parse a decimal literal
(optional sign, digits with optional fraction, optional exponent) and truncate
toward zero; none models the error path that the bare except of the source
catches (ValueError of float, and OverflowError of int on inf and nan). Exact
decimal arithmetic stands in for binary floating point, and digit group
underscores are not modelled; no claim depends on either difference. -/
def pyFloatInt (s : String) : Option Int :=
  let cs := pyStripChars s.data
  let sg := parseSign cs
  match parseMantissa sg.2 with
  | none => none
  | some (ip, fp, rest) =>
    match parseExp rest with
    | none => none
    | some ex =>
      let m : Nat := digitsToNat (ip ++ fp)
      let e : Int := ex - fp.length
      let mag : Nat := if 0 ≤ e then m * 10 ^ e.toNat else m / 10 ^ (-e).toNat
      some (if sg.1 then -(mag : Int) else (mag : Int))

/-- Embedding of safe_int_price from bot_runner.py: int(float(raw)) with every
failure mapped to 0 by the bare except. The none input covers both a missing
CSV key, where the source passes the int 0 and int(float(0)) = 0, and a None
field value, where float(None) raises; both yield 0. -/
def safe_int_price (raw : Option String) : Int :=
  match raw with
  | none => 0
  | some s =>
    match pyFloatInt s with
    | some v => v
    | none => 0

/-- Embedding of normalize_bedrooms from bot_runner.py; the input none models
the Python value None. -/
def normalize_bedrooms (raw : Option String) : String :=
  match raw with
  | none => "Unknown"
  | some s0 =>
    if pyStrip s0 = "" then "Unknown"
    else
      let s := pyStrip s0
      match pyFloatInt s with
      | some v => if v = 0 then "Bedsitter" else Int.repr v
      | none =>
        if pyLower s = "bedsitter" ∨ pyLower s = "bedsit" ∨ pyLower s = "bed sitter" then
          "Bedsitter"
        else s

/-- Models Python str.title over a character list; the flag records whether the
previous character was alphabetic. -/
def pyTitleGo : List Char → Bool → List Char
  | [], _ => []
  | c :: cs, prevAlpha =>
    (if c.isAlpha then (if prevAlpha then c.toLower else c.toUpper) else c) ::
      pyTitleGo cs c.isAlpha

/-- Models Python str.title: first letter of every word upper case, the rest of
the word lower case. -/
def pyTitle (s : String) : String := String.mk (pyTitleGo s.data false)

/-- Shift amount table of MD5 (RFC 1321), one entry per round. -/
def md5S : List Nat :=
  [7, 12, 17, 22, 7, 12, 17, 22, 7, 12, 17, 22, 7, 12, 17, 22,
   5, 9, 14, 20, 5, 9, 14, 20, 5, 9, 14, 20, 5, 9, 14, 20,
   4, 11, 16, 23, 4, 11, 16, 23, 4, 11, 16, 23, 4, 11, 16, 23,
   6, 10, 15, 21, 6, 10, 15, 21, 6, 10, 15, 21, 6, 10, 15, 21]

/-- Sine derived constant table of MD5 (RFC 1321), one 32-bit word per round. -/
def md5K : List Nat :=
  [0xd76aa478, 0xe8c7b756, 0x242070db, 0xc1bdceee,
   0xf57c0faf, 0x4787c62a, 0xa8304613, 0xfd469501,
   0x698098d8, 0x8b44f7af, 0xffff5bb1, 0x895cd7be,
   0x6b901122, 0xfd987193, 0xa679438e, 0x49b40821,
   0xf61e2562, 0xc040b340, 0x265e5a51, 0xe9b6c7aa,
   0xd62f105d, 0x02441453, 0xd8a1e681, 0xe7d3fbc8,
   0x21e1cde6, 0xc33707d6, 0xf4d50d87, 0x455a14ed,
   0xa9e3e905, 0xfcefa3f8, 0x676f02d9, 0x8d2a4c8a,
   0xfffa3942, 0x8771f681, 0x6d9d6122, 0xfde5380c,
   0xa4beea44, 0x4bdecfa9, 0xf6bb4b60, 0xbebfbc70,
   0x289b7ec6, 0xeaa127fa, 0xd4ef3085, 0x04881d05,
   0xd9d4d039, 0xe6db99e5, 0x1fa27cf8, 0xc4ac5665,
   0xf4292244, 0x432aff97, 0xab9423a7, 0xfc93a039,
   0x655b59c3, 0x8f0ccc92, 0xffeff47d, 0x85845dd1,
   0x6fa87e4f, 0xfe2ce6e0, 0xa3014314, 0x4e0811a1,
   0xf7537e82, 0xbd3af235, 0x2ad7d2bb, 0xeb86d391]

/-- Left rotation of a 32-bit word, on naturals below 2 to the 32. -/
def rotl32 (x s : Nat) : Nat := ((x <<< s) % 4294967296) ||| (x >>> (32 - s))

/-- One MD5 round applied to the state; M gives the sixteen message words of
the current chunk and i the round index. -/
def md5Round (M : List Nat) (st : Nat × Nat × Nat × Nat) (i : Nat) : Nat × Nat × Nat × Nat :=
  let a := st.1
  let b := st.2.1
  let c := st.2.2.1
  let d := st.2.2.2
  let fg : Nat × Nat :=
    if i < 16 then ((b &&& c) ||| ((b ^^^ 4294967295) &&& d), i)
    else if i < 32 then ((d &&& b) ||| ((d ^^^ 4294967295) &&& c), (5 * i + 1) % 16)
    else if i < 48 then (b ^^^ c ^^^ d, (3 * i + 5) % 16)
    else (c ^^^ (b ||| (d ^^^ 4294967295)), (7 * i) % 16)
  let f2 := (fg.1 + a + md5K.getD i 0 + M.getD fg.2 0) % 4294967296
  (d, (b + rotl32 f2 (md5S.getD i 0)) % 4294967296, b, c)

/-- Message word j of a 64-byte chunk, assembled little endian. -/
def chunkWord (chunk : List Nat) (j : Nat) : Nat :=
  chunk.getD (4 * j) 0 + 256 * chunk.getD (4 * j + 1) 0 +
    65536 * chunk.getD (4 * j + 2) 0 + 16777216 * chunk.getD (4 * j + 3) 0

/-- Process one 64-byte chunk of the padded message. -/
def md5Chunk (st : Nat × Nat × Nat × Nat) (chunk : List Nat) : Nat × Nat × Nat × Nat :=
  let M := (List.range 16).map (chunkWord chunk)
  let r := (List.range 64).foldl (md5Round M) st
  ((st.1 + r.1) % 4294967296, (st.2.1 + r.2.1) % 4294967296,
   (st.2.2.1 + r.2.2.1) % 4294967296, (st.2.2.2 + r.2.2.2) % 4294967296)

/-- Little endian bytes of the message bit length, eight bytes, mod 2 to 64. -/
def le8 (n : Nat) : List Nat :=
  [n % 256, n / 256 % 256, n / 65536 % 256, n / 16777216 % 256,
   n / 4294967296 % 256, n / 1099511627776 % 256,
   n / 281474976710656 % 256, n / 72057594037927936 % 256]

/-- MD5 padding: append the byte 128, zero bytes until the length is 56 mod 64,
then the bit length. -/
def md5Pad (msg : List Nat) : List Nat :=
  msg ++ [128] ++ List.replicate ((119 - msg.length % 64) % 64) 0 ++ le8 (msg.length * 8)

/-- Split a byte list into chunks of 64; the fuel argument makes the recursion
structural, so that evaluation by the kernel reduces. -/
def chunksGo : Nat → List Nat → List (List Nat)
  | 0, _ => []
  | _ + 1, [] => []
  | fuel + 1, c :: cs => ((c :: cs).take 64) :: chunksGo fuel ((c :: cs).drop 64)

/-- Chunks of 64 bytes of a byte list. -/
def chunks64 (l : List Nat) : List (List Nat) := chunksGo l.length l

/-- Little endian bytes of one 32-bit word, four bytes. -/
def wordLE (x : Nat) : List Nat := [x % 256, x / 256 % 256, x / 65536 % 256, x / 16777216 % 256]

/-- MD5 digest bytes (sixteen of them) of a byte message. -/
def md5Bytes (msg : List Nat) : List Nat :=
  let r := (chunks64 (md5Pad msg)).foldl md5Chunk (1732584193, 4023233417, 2562383102, 271733878)
  wordLE r.1 ++ wordLE r.2.1 ++ wordLE r.2.2.1 ++ wordLE r.2.2.2

/-- Lower case hex digit character, as hexdigest prints one nibble: values
below ten map to the decimal digits, ten to fifteen map to a through f. -/
def hexChar (n : Nat) : Char :=
  if n < 10 then Char.ofNat (48 + n) else Char.ofNat (87 + n)

/-- Two hex characters of one byte. -/
def byteHex (b : Nat) : List Char := [hexChar (b / 16), hexChar (b % 16)]

/-- Hex digest string of a byte message. -/
def md5HexStr (msg : List Nat) : String := String.mk (((md5Bytes msg).map byteHex).flatten)

/-- UTF-8 encoding of one character, as byte values. -/
def utf8EncodeCharNat (c : Char) : List Nat :=
  let n := c.toNat
  if n < 128 then [n]
  else if n < 2048 then [192 ||| (n >>> 6), 128 ||| (n &&& 63)]
  else if n < 65536 then
    [224 ||| (n >>> 12), 128 ||| ((n >>> 6) &&& 63), 128 ||| (n &&& 63)]
  else
    [240 ||| (n >>> 18), 128 ||| ((n >>> 12) &&& 63), 128 ||| ((n >>> 6) &&& 63),
     128 ||| (n &&& 63)]

/-- UTF-8 bytes of a string; models encode of Python with the utf-8 codec. -/
def utf8Bytes (s : String) : List Nat := s.data.flatMap utf8EncodeCharNat

/-- Embedding of the helper from bot_runner.py line 58: hashlib md5 hexdigest
of the UTF-8 encoded text. The guard in the source converts None to the empty
string; on actual strings it is the identity, since the empty string maps to
itself. -/
def _md5 (text : String) : String := md5HexStr (utf8Bytes text)

/-- Denormalized favorite rows as stored in the SQLite favorites table, listed
in insertion order. All columns are TEXT. -/
structure FavRecord where
  user_id : String
  title : String
  price : String
  bedrooms : String
  location : String
  url : String
  image_url : String
deriving Repr, DecidableEq

/-- One normalized in-memory catalog entry, as built by load_listings. -/
structure Listing where
  title : String
  location : String
  image_url : String
  url : String
  bedrooms : String
  price : Int
deriving Repr, DecidableEq

/-- Models Python str on an int, as applied to user ids and prices. -/
def pyStr (i : Int) : String := Int.repr i

/-- Embedding of add_favorite from bot_runner.py lines 61 to 70: INSERT appends
one denormalized row; the user id and the price are stringified. -/
def add_favorite (db : List FavRecord) (user_id : Int) (listing : Listing) : List FavRecord :=
  db ++ [{ user_id := pyStr user_id, title := listing.title, price := pyStr listing.price,
           bedrooms := listing.bedrooms, location := listing.location,
           url := listing.url, image_url := listing.image_url }]

/-- Loop body of remove_favorite_by_hash: iterate over the prefetched url list
of the rows of this user; on an md5 match, DELETE every row of the user with
that exact url and record that something was removed. -/
def remove_scan (u url_hash : String) :
    List String → List FavRecord → Bool → Bool × List FavRecord
  | [], db, removed => (removed, db)
  | url :: rest, db, removed =>
    if _md5 url = url_hash then
      remove_scan u url_hash rest
        (db.filter (fun r => !decide (r.user_id = u ∧ r.url = url))) true
    else
      remove_scan u url_hash rest db removed

/-- Embedding of remove_favorite_by_hash from bot_runner.py lines 72 to 84:
fetch the urls of the rows of this user, then delete by user and url on each
hash match; returns whether at least one row was removed, plus the new table. -/
def remove_favorite_by_hash (db : List FavRecord) (user_id : Int) (url_hash : String) :
    Bool × List FavRecord :=
  let rows := (db.filter (fun r => decide (r.user_id = pyStr user_id))).map (fun r => r.url)
  remove_scan (pyStr user_id) url_hash rows db false

/-- Embedding of load_user_favorites from bot_runner.py lines 86 to 93: the
rows of this user, in storage order. -/
def load_user_favorites (db : List FavRecord) (user_id : Int) : List FavRecord :=
  db.filter (fun r => decide (r.user_id = pyStr user_id))

/-- One raw CSV row as produced by DictReader; none models a missing column or
a None field value, which the source treats alike for every field. -/
structure Row where
  title : Option String
  location : Option String
  image_url : Option String
  url : Option String
  bedrooms : Option String
  price : Option String
deriving Repr, DecidableEq

/-- Normalization of one CSV row into a Listing, as in the loop body of
load_listings, bot_runner.py lines 126 to 137. For the bedrooms field the
source passes the raw value, and both a missing value and the empty string
normalize to Unknown, so the none case folds into the empty string here. -/
def parseListing (r : Row) : Listing :=
  { title := pyStrip (r.title.getD "")
    location := pyTitle (pyStrip (r.location.getD ""))
    image_url := pyStrip (r.image_url.getD "")
    url := pyStrip (r.url.getD "")
    bedrooms := normalize_bedrooms (some (r.bedrooms.getD ""))
    price := safe_int_price r.price }

/-- Embedding of load_listings from bot_runner.py lines 118 to 138: the final
value of the shared listings global. none models a missing CSV file, which
leaves the freshly emptied catalog empty and only logs a warning. -/
def load_listings (src : Option (List Row)) : List Listing :=
  match src with
  | none => []
  | some rows => rows.map parseListing

/-- Successive values taken by the process wide listings global during one run
of load_listings, starting from the previous catalog: the source first rebinds
the global to a fresh empty list and then appends one parsed row at a time, so
the states are the old catalog followed by every prefix of the new one; for a
missing file, just the old catalog and then the empty catalog. -/
def load_listings_states (old : List Listing) (src : Option (List Row)) : List (List Listing) :=
  old :: (match src with
    | none => [[]]
    | some rows => (List.range (rows.length + 1)).map (fun k => (rows.take k).map parseListing))

/-- Render result of the start command: the message text and the inline
keyboard buttons as label and callback data pairs; an empty button list means
no keyboard was attached. -/
structure StartRender where
  text : String
  buttons : List (String × String)
deriving Repr, DecidableEq

/-- Distinct listing locations in ascending order. Models sorted over the
Python set of the locations, which yields exactly the distinct elements in
ascending order, obtained here as dedup followed by insertion sort. -/
def sorted_locations (ls : List Listing) : List String :=
  List.insertionSort (fun a b => a ≤ b) (ls.map (fun l => l.location)).dedup

/-- Embedding of cmd_start from bot_runner.py lines 152 to 159: an empty
catalog renders the no listings message without a keyboard, else one button
per distinct location, in ascending order, each carrying its location payload. -/
def cmd_start (ls : List Listing) : StartRender :=
  if ls.isEmpty then { text := "Sorry, no listings available.", buttons := [] }
  else
    { text := "🏡 Welcome! Select a location:",
      buttons := (sorted_locations ls).map (fun loc => (loc, "location|" ++ loc)) }

/-- Outbound transport effects of a callback handler. -/
inductive BotAction where
  | editMarkupCleared : BotAction
  | message : String → BotAction
deriving Repr, DecidableEq

/-- Embedding of the savefav branch of handle_callback, bot_runner.py lines
208 to 216: scan the catalog for the first listing whose url hash matches, add
it to the favorites of the user, clear the keyboard of the current render,
send a confirmation, then break; without a match nothing at all happens. -/
def handle_savefav (user : Int) (url_hash : String) (db : List FavRecord) :
    List Listing → List FavRecord × List BotAction
  | [] => (db, [])
  | l :: rest =>
    if _md5 l.url = url_hash then
      (add_favorite db user l,
       [BotAction.editMarkupCleared, BotAction.message "✅ Saved to favorites."])
    else handle_savefav user url_hash db rest

/-- Lower case hex digit alphabet of hexdigest output, the sixteen nibble
characters in value order. -/
def hexDigitChars : List Char := (List.range 16).map hexChar

/-- Concrete catalog entry standing for the previous catalog in the load
atomicity check. -/
def oldListing : Listing :=
  { title := "Old", location := "Kinoo", image_url := "", url := "https://old/1",
    bedrooms := "1", price := 5000 }

/-- Concrete CSV row for the load atomicity check. -/
def rowA : Row :=
  { title := some "A", location := some "kinoo", image_url := some "",
    url := some "https://x/1", bedrooms := some "1", price := some "1000" }

/-- Second concrete CSV row for the load atomicity check. -/
def rowB : Row :=
  { title := some "B", location := some "ruiru", image_url := some "",
    url := some "https://x/2", bedrooms := some "2", price := some "2000" }

/-- Concrete CSV row carrying a negative price field. -/
def negPriceRow : Row :=
  { title := some "T", location := some "kinoo", image_url := some "",
    url := some "https://x/9", bedrooms := some "1", price := some "-5" }

/-- Concrete listing with location Nairobi, for witnesses. -/
def cListingA : Listing :=
  { title := "Flat A", location := "Nairobi", image_url := "", url := "https://x/1",
    bedrooms := "1", price := 1000 }

/-- Concrete listing with location Mombasa, for witnesses. -/
def cListingB : Listing :=
  { title := "Flat B", location := "Mombasa", image_url := "", url := "https://x/2",
    bedrooms := "2", price := 2000 }

/-- C6: bedrooms normalization maps the empty string and None to Unknown, the
string 0 to Bedsitter, the strings 2 and 2.0 both to 2, the case insensitive
synonyms bedsit and BedSitter to Bedsitter, and passes studio through
unchanged. -/
theorem normalize_bedrooms_cases :
    normalize_bedrooms (some "") = "Unknown" ∧
    normalize_bedrooms none = "Unknown" ∧
    normalize_bedrooms (some "0") = "Bedsitter" ∧
    normalize_bedrooms (some "2") = "2" ∧
    normalize_bedrooms (some "2.0") = "2" ∧
    normalize_bedrooms (some "bedsit") = "Bedsitter" ∧
    normalize_bedrooms (some "BedSitter") = "Bedsitter" ∧
    normalize_bedrooms (some "studio") = "studio" := by
  decide

theorem md5Bytes_shape (msg : List Nat) :
    ∃ a b c d, md5Bytes msg = wordLE a ++ wordLE b ++ wordLE c ++ wordLE d := by
  unfold md5Bytes
  exact ⟨_, _, _, _, rfl⟩

theorem length_md5HexStr (msg : List Nat) : (md5HexStr msg).length = 32 := by
  obtain ⟨a, b, c, d, hshape⟩ := md5Bytes_shape msg
  simp [md5HexStr, String.length, hshape, wordLE, byteHex]

theorem hexChar_mem (n : Nat) (hn : n < 16) : hexChar n ∈ hexDigitChars := by
  interval_cases n <;> decide

theorem wordLE_lt (x : Nat) : ∀ y ∈ wordLE x, y < 256 := by
  intro y hy
  simp only [wordLE, List.mem_cons, List.not_mem_nil, or_false] at hy
  rcases hy with rfl | rfl | rfl | rfl <;> exact Nat.mod_lt _ (by norm_num)

theorem mem_md5HexStr_hex (msg : List Nat) :
    ∀ c ∈ (md5HexStr msg).data, c ∈ hexDigitChars := by
  intro c hc
  obtain ⟨a, b2, c2, d2, hshape⟩ := md5Bytes_shape msg
  simp only [md5HexStr, List.mem_flatten, List.mem_map] at hc
  obtain ⟨l, ⟨y, hy, rfl⟩, hcl⟩ := hc
  have hy256 : y < 256 := by
    rw [hshape] at hy
    simp only [List.mem_append] at hy
    rcases hy with ((h | h) | h) | h <;> exact wordLE_lt _ _ h
  simp only [byteHex, List.mem_cons, List.not_mem_nil, or_false] at hcl
  rcases hcl with rfl | rfl
  · exact hexChar_mem _ (Nat.div_lt_of_lt_mul (by omega))
  · exact hexChar_mem _ (Nat.mod_lt _ (by norm_num))

/-- C3: listing identity is a deterministic pure function of the url text:
equal inputs give equal digests, the digest always consists of exactly 32
lower case hex characters, and the empty string is a valid input that maps to
the fixed digest d41d8cd98f00b204e9800998ecf8427e. -/
theorem md5_identity_spec :
    ∀ u : String, _md5 u = _md5 u ∧ (_md5 u).length = 32 ∧
      (∀ c ∈ (_md5 u).data, c ∈ hexDigitChars) ∧
      _md5 "" = "d41d8cd98f00b204e9800998ecf8427e" := by
  intro u
  exact ⟨rfl, length_md5HexStr _, mem_md5HexStr_hex _, by decide⟩

theorem md5_identity_spec_witness :
    '2' ∈ (_md5 "https://x/1").data ∧ '2' ∈ hexDigitChars :=
  ⟨by decide, (md5_identity_spec "https://x/1").2.2.1 '2' (by decide)⟩

/-- C5: the savefav handler is a silent no-op whenever no catalog listing
hashes to the payload identity — no action is emitted and the favorites store
is left unchanged — and otherwise adds the first matching listing in catalog
order to the favorites of the user, clears the keyboard of the current render
and sends the confirmation message. -/
theorem handle_savefav_spec (user : Int) (url_hash : String) (db : List FavRecord)
    (ls : List Listing) :
    handle_savefav user url_hash db ls =
      match ls.find? (fun l => decide (_md5 l.url = url_hash)) with
      | none => (db, [])
      | some l =>
        (add_favorite db user l,
         [BotAction.editMarkupCleared, BotAction.message "✅ Saved to favorites."]) := by
  induction ls with
  | nil => simp [handle_savefav]
  | cons l rest ih =>
    by_cases hm : _md5 l.url = url_hash
    · simp [handle_savefav, hm, List.find?_cons]
    · simp [handle_savefav, hm, List.find?_cons, ih]

/-- C8 evidence: load_listings first rebinds the shared catalog to a fresh
empty list and then appends one parsed row at a time, so with a nonempty old
catalog and a two row file the shared state passes through the empty list — a
state that is neither the old catalog nor the completed new one. This refutes
atomic end-of-load replacement for the observed in-place loader. -/
theorem load_listings_not_atomic :
    ∃ st ∈ load_listings_states [oldListing] (some [rowA, rowB]),
      st ≠ [oldListing] ∧ st ≠ load_listings (some [rowA, rowB]) := by
  decide

theorem sorted_locations_sorted (ls : List Listing) :
    List.Sorted (fun a b : String => a < b) (sorted_locations ls) := by
  have hs : List.Sorted (fun a b : String => a ≤ b) (sorted_locations ls) :=
    List.sorted_insertionSort _ _
  have hn : (sorted_locations ls).Nodup :=
    ((List.perm_insertionSort _ _).nodup_iff).mpr (List.nodup_dedup _)
  exact hs.lt_of_le hn

theorem mem_sorted_locations (ls : List Listing) (x : String) :
    x ∈ sorted_locations ls ↔ ∃ l ∈ ls, l.location = x := by
  simp [sorted_locations, List.mem_insertionSort, List.mem_dedup, List.mem_map, eq_comm]

/-- C4: the start action on an empty catalog renders the no listings message
with no buttons; on a nonempty catalog it renders one button per distinct
listing location, in strictly ascending order, each carrying the payload that
joins the word location with the location name by a vertical bar. -/
theorem cmd_start_spec :
    cmd_start [] = { text := "Sorry, no listings available.", buttons := [] } ∧
    ∀ ls : List Listing, ls ≠ [] →
      List.Sorted (fun a b : String => a < b) ((cmd_start ls).buttons.map Prod.fst) ∧
      (∀ p ∈ (cmd_start ls).buttons,
        p.2 = "location|" ++ p.1 ∧ ∃ l ∈ ls, l.location = p.1) ∧
      (∀ l ∈ ls, ∃ p ∈ (cmd_start ls).buttons, p.1 = l.location) := by
  refine ⟨rfl, ?_⟩
  intro ls hls
  have hne : ls.isEmpty = false := by
    cases ls with
    | nil => exact absurd rfl hls
    | cons a t => rfl
  refine ⟨?_, ?_, ?_⟩
  · have : ((cmd_start ls).buttons.map Prod.fst) = sorted_locations ls := by
      simp only [cmd_start, hne, Bool.false_eq_true, if_false, List.map_map]
      exact List.map_id _
    rw [this]
    exact sorted_locations_sorted ls
  · intro p hp
    simp only [cmd_start, hne, Bool.false_eq_true, if_false, List.mem_map] at hp
    obtain ⟨loc, hloc, rfl⟩ := hp
    exact ⟨rfl, (mem_sorted_locations ls loc).mp hloc⟩
  · intro l hl
    refine ⟨(l.location, "location|" ++ l.location), ?_, rfl⟩
    simp only [cmd_start, hne, Bool.false_eq_true, if_false, List.mem_map]
    exact ⟨l.location, (mem_sorted_locations ls l.location).mpr ⟨l, hl, rfl⟩, rfl⟩

theorem cmd_start_spec_witness :
    List.Sorted (fun a b : String => a < b)
      ((cmd_start [cListingA, cListingB]).buttons.map Prod.fst) ∧
    (∀ p ∈ (cmd_start [cListingA, cListingB]).buttons,
      p.2 = "location|" ++ p.1 ∧ ∃ l ∈ [cListingA, cListingB], l.location = p.1) ∧
    (∀ l ∈ [cListingA, cListingB], ∃ p ∈ (cmd_start [cListingA, cListingB]).buttons,
      p.1 = l.location) :=
  cmd_start_spec.2 [cListingA, cListingB] (by decide)

theorem remove_scan_spec (u url_hash : String) (urls : List String) :
    ∀ (db : List FavRecord) (b : Bool),
      remove_scan u url_hash urls db b =
        (b || decide (∃ x ∈ urls, _md5 x = url_hash),
         db.filter (fun r =>
           !decide (r.user_id = u ∧ r.url ∈ urls ∧ _md5 r.url = url_hash))) := by
  induction urls with
  | nil =>
    intro db b
    simp [remove_scan]
  | cons url rest ih =>
    intro db b
    by_cases hm : _md5 url = url_hash
    · simp only [remove_scan, if_pos hm, ih]
      refine Prod.ext ?_ ?_
      · have hx : decide (∃ x ∈ url :: rest, _md5 x = url_hash) = true := by
          simp only [decide_eq_true_eq]
          exact ⟨url, List.mem_cons_self url rest, hm⟩
        simp only [hx, Bool.true_or, Bool.or_true]
      · show List.filter _ (List.filter _ db) = _
        rw [List.filter_filter]
        refine List.filter_congr ?_
        intro r _
        rw [← Bool.not_or, ← Bool.decide_or]
        congr 1
        refine decide_eq_decide.mpr ?_
        constructor
        · rintro (⟨h1, h2, h3⟩ | ⟨h1, h2⟩)
          · exact ⟨h1, List.mem_cons_of_mem url h2, h3⟩
          · exact ⟨h1, by rw [h2]; exact List.mem_cons_self url rest, by rw [h2]; exact hm⟩
        · rintro ⟨h1, h2, h3⟩
          rcases List.mem_cons.mp h2 with heq | hmem
          · exact Or.inr ⟨h1, heq⟩
          · exact Or.inl ⟨h1, hmem, h3⟩
    · simp only [remove_scan, if_neg hm, ih]
      refine Prod.ext ?_ ?_
      · show (b || _) = (b || _)
        congr 1
        refine decide_eq_decide.mpr ?_
        constructor
        · rintro ⟨x, hx, h⟩
          exact ⟨x, List.mem_cons_of_mem url hx, h⟩
        · rintro ⟨x, hx, h⟩
          rcases List.mem_cons.mp hx with heq | hmem
          · exact absurd (heq ▸ h) hm
          · exact ⟨x, hmem, h⟩
      · show List.filter _ db = List.filter _ db
        refine List.filter_congr ?_
        intro r _
        congr 1
        refine decide_eq_decide.mpr ?_
        constructor
        · rintro ⟨h1, h2, h3⟩
          exact ⟨h1, List.mem_cons_of_mem url h2, h3⟩
        · rintro ⟨h1, h2, h3⟩
          rcases List.mem_cons.mp h2 with heq | hmem
          · exact absurd (heq ▸ h3) hm
          · exact ⟨h1, hmem, h3⟩

theorem remove_favorite_by_hash_eq (db : List FavRecord) (uid : Int) (url_hash : String) :
    remove_favorite_by_hash db uid url_hash =
      (decide (∃ r ∈ db, r.user_id = pyStr uid ∧ _md5 r.url = url_hash),
       db.filter (fun r => !decide (r.user_id = pyStr uid ∧ _md5 r.url = url_hash))) := by
  unfold remove_favorite_by_hash
  rw [remove_scan_spec]
  refine Prod.ext ?_ ?_
  · show (false || _) = _
    rw [Bool.false_or]
    refine decide_eq_decide.mpr ?_
    constructor
    · rintro ⟨x, hx, h⟩
      simp only [List.mem_map, List.mem_filter, decide_eq_true_eq] at hx
      obtain ⟨r, ⟨hr, hru⟩, rfl⟩ := hx
      exact ⟨r, hr, hru, h⟩
    · rintro ⟨r, hr, hru, h⟩
      refine ⟨r.url, ?_, h⟩
      simp only [List.mem_map, List.mem_filter, decide_eq_true_eq]
      exact ⟨r, ⟨hr, hru⟩, rfl⟩
  · refine List.filter_congr ?_
    intro r hr
    congr 1
    refine decide_eq_decide.mpr ?_
    constructor
    · rintro ⟨h1, _, h3⟩
      exact ⟨h1, h3⟩
    · rintro ⟨h1, h3⟩
      refine ⟨h1, ?_, h3⟩
      simp only [List.mem_map, List.mem_filter, decide_eq_true_eq]
      exact ⟨r, ⟨hr, h1⟩, rfl⟩

/-- Concrete favorite row of a different user, used as surviving context in
witnesses. -/
def otherRec : FavRecord :=
  { user_id := "8", title := "x", price := "0", bedrooms := "1",
    location := "Kinoo", url := "https://y/1", image_url := "" }

/-- C10: when remove_favorite_by_hash reports that nothing was removed, the
whole favorites table is left exactly as it was — no record of any user has
been deleted by the call. -/
theorem remove_miss_leaves_table (db : List FavRecord) (uid : Int) (url_hash : String)
    (hf : (remove_favorite_by_hash db uid url_hash).1 = false) :
    (remove_favorite_by_hash db uid url_hash).2 = db := by
  rw [remove_favorite_by_hash_eq] at hf ⊢
  have hne : ¬ ∃ r ∈ db, r.user_id = pyStr uid ∧ _md5 r.url = url_hash := by
    simpa using hf
  show List.filter _ db = db
  rw [List.filter_eq_self]
  intro r hr
  have hnot : ¬(r.user_id = pyStr uid ∧ _md5 r.url = url_hash) :=
    fun hP => hne ⟨r, hr, hP⟩
  simp [hnot]

theorem remove_miss_leaves_table_witness :
    (remove_favorite_by_hash [otherRec] 7 "nohash").2 = [otherRec] :=
  remove_miss_leaves_table [otherRec] 7 "nohash" (by decide)

/-- C1: round trip save and remove — after adding a listing with a nonempty
url, the favorites of the user contain a record with that url; removing by the
identity of that url then reports success, and afterwards no record with that
url remains among the favorites of the user. -/
theorem roundtrip_save_remove (db : List FavRecord) (uid : Int) (L : Listing)
    (_hurl : L.url ≠ "") :
    (∃ r ∈ load_user_favorites (add_favorite db uid L) uid, r.url = L.url) ∧
    (remove_favorite_by_hash (add_favorite db uid L) uid (_md5 L.url)).1 = true ∧
    (∀ r ∈ load_user_favorites
        (remove_favorite_by_hash (add_favorite db uid L) uid (_md5 L.url)).2 uid,
      r.url ≠ L.url) := by
  refine ⟨?_, ?_, ?_⟩
  · refine ⟨{ user_id := pyStr uid, title := L.title, price := pyStr L.price,
              bedrooms := L.bedrooms, location := L.location, url := L.url,
              image_url := L.image_url }, ?_, rfl⟩
    simp [load_user_favorites, add_favorite, List.mem_filter]
  · rw [remove_favorite_by_hash_eq]
    refine decide_eq_true ?_
    refine ⟨{ user_id := pyStr uid, title := L.title, price := pyStr L.price,
              bedrooms := L.bedrooms, location := L.location, url := L.url,
              image_url := L.image_url }, ?_, rfl, rfl⟩
    simp [add_favorite]
  · intro r hr
    rw [remove_favorite_by_hash_eq] at hr
    simp only [load_user_favorites, List.mem_filter, Bool.not_eq_true',
      decide_eq_false_iff_not, decide_eq_true_eq] at hr
    obtain ⟨⟨_, hnm⟩, hu⟩ := hr
    intro hru
    exact hnm ⟨hu, by rw [hru]⟩

theorem roundtrip_save_remove_witness :
    (∃ r ∈ load_user_favorites (add_favorite [] 7 cListingA) 7, r.url = cListingA.url) ∧
    (remove_favorite_by_hash (add_favorite [] 7 cListingA) 7 (_md5 cListingA.url)).1 = true ∧
    (∀ r ∈ load_user_favorites
        (remove_favorite_by_hash (add_favorite [] 7 cListingA) 7 (_md5 cListingA.url)).2 7,
      r.url ≠ cListingA.url) :=
  roundtrip_save_remove [] 7 cListingA (by decide)

/-- C2: adding the same listing twice for one user and removing once by its
identity reports success and deletes every record of that user whose stored
url hashes to the identity — both duplicates included — and a second removal
with the same identity then reports failure. -/
theorem duplicate_removal_semantics (db : List FavRecord) (uid : Int) (L : Listing) :
    (remove_favorite_by_hash (add_favorite (add_favorite db uid L) uid L) uid
        (_md5 L.url)).1 = true ∧
    (∀ r ∈ (remove_favorite_by_hash (add_favorite (add_favorite db uid L) uid L) uid
        (_md5 L.url)).2,
      ¬(r.user_id = pyStr uid ∧ _md5 r.url = _md5 L.url)) ∧
    (remove_favorite_by_hash
        (remove_favorite_by_hash (add_favorite (add_favorite db uid L) uid L) uid
          (_md5 L.url)).2
        uid (_md5 L.url)).1 = false := by
  refine ⟨?_, ?_, ?_⟩
  · rw [remove_favorite_by_hash_eq]
    refine decide_eq_true ?_
    refine ⟨{ user_id := pyStr uid, title := L.title, price := pyStr L.price,
              bedrooms := L.bedrooms, location := L.location, url := L.url,
              image_url := L.image_url }, ?_, rfl, rfl⟩
    simp [add_favorite]
  · intro r hr
    rw [remove_favorite_by_hash_eq] at hr
    simp only [List.mem_filter, Bool.not_eq_true', decide_eq_false_iff_not] at hr
    exact hr.2
  · rw [remove_favorite_by_hash_eq]
    refine decide_eq_false ?_
    rintro ⟨r, hr, hP⟩
    rw [remove_favorite_by_hash_eq] at hr
    simp only [List.mem_filter, Bool.not_eq_true', decide_eq_false_iff_not] at hr
    exact hr.2 hP

theorem duplicate_removal_semantics_witness :
    ¬(otherRec.user_id = pyStr 7 ∧ _md5 otherRec.url = _md5 cListingA.url) :=
  (duplicate_removal_semantics [otherRec] 7 cListingA).2.1 otherRec (by decide)

theorem digitsToNat_foldl (l : List Char) :
    ∀ a : Nat, l.foldl (fun x c => x * 10 + (c.toNat - 48)) a
      = a * 10 ^ l.length + digitsToNat l := by
  induction l with
  | nil => intro a; simp [digitsToNat]
  | cons c t ih =>
    intro a
    simp only [digitsToNat, List.foldl_cons, List.length_cons]
    rw [ih (a * 10 + (c.toNat - 48)), ih (0 * 10 + (c.toNat - 48))]
    ring

theorem digitChar_val (m : Nat) (hm : m < 10) : (Nat.digitChar m).toNat - 48 = m := by
  interval_cases m <;> decide

theorem toDigitsCore_val (fuel : Nat) :
    ∀ (n : Nat) (ds : List Char), n < 10 ^ fuel →
      digitsToNat (Nat.toDigitsCore 10 fuel n ds) = n * 10 ^ ds.length + digitsToNat ds := by
  induction fuel with
  | zero =>
    intro n ds hn
    have : n = 0 := by simpa using hn
    subst this
    simp [Nat.toDigitsCore]
  | succ fuel ih =>
    intro n ds hn
    have hmod : (Nat.digitChar (n % 10)).toNat - 48 = n % 10 :=
      digitChar_val _ (Nat.mod_lt _ (by norm_num))
    have hcons : ∀ t : List Char,
        digitsToNat (Nat.digitChar (n % 10) :: t) = (n % 10) * 10 ^ t.length + digitsToNat t := by
      intro t
      simp only [digitsToNat, List.foldl_cons]
      rw [digitsToNat_foldl t, hmod]
      simp [digitsToNat]
    simp only [Nat.toDigitsCore]
    by_cases h0 : n / 10 = 0
    · rw [if_pos h0, hcons ds]
      have : n % 10 = n := by omega
      rw [this]
    · rw [if_neg h0]
      have hdiv : n / 10 < 10 ^ fuel := by
        apply Nat.div_lt_of_lt_mul
        calc n < 10 ^ (fuel + 1) := hn
          _ = 10 * 10 ^ fuel := by ring
      rw [ih (n / 10) (Nat.digitChar (n % 10) :: ds) hdiv, hcons ds]
      simp only [List.length_cons]
      have hnm : 10 * (n / 10) + n % 10 = n := Nat.div_add_mod n 10
      calc n / 10 * 10 ^ (ds.length + 1) + ((n % 10) * 10 ^ ds.length + digitsToNat ds)
          = (10 * (n / 10) + n % 10) * 10 ^ ds.length + digitsToNat ds := by ring
        _ = n * 10 ^ ds.length + digitsToNat ds := by rw [hnm]

theorem digitsToNat_toDigits (n : Nat) : digitsToNat (Nat.toDigits 10 n) = n := by
  have hb : n < 10 ^ (n + 1) := by
    calc n < 10 ^ n := Nat.lt_pow_self (by norm_num) n
      _ ≤ 10 ^ (n + 1) := Nat.pow_le_pow_right (by norm_num) (Nat.le_succ n)
  have := toDigitsCore_val (n + 1) n [] hb
  simpa [Nat.toDigits, digitsToNat] using this

theorem natRepr_injective : Function.Injective Nat.repr := by
  intro a b hab
  have hdata : Nat.toDigits 10 a = Nat.toDigits 10 b := congrArg String.data hab
  calc a = digitsToNat (Nat.toDigits 10 a) := (digitsToNat_toDigits a).symm
    _ = digitsToNat (Nat.toDigits 10 b) := by rw [hdata]
    _ = b := digitsToNat_toDigits b

theorem toDigitsCore_head (fuel : Nat) :
    ∀ (n : Nat) (ds : List Char), n < 10 ^ fuel → 0 < fuel →
      ∃ m t, m < 10 ∧ Nat.toDigitsCore 10 fuel n ds = Nat.digitChar m :: t := by
  induction fuel with
  | zero => intro n ds _ hf; exact absurd hf (by omega)
  | succ fuel ih =>
    intro n ds hn _
    simp only [Nat.toDigitsCore]
    by_cases h0 : n / 10 = 0
    · exact ⟨n % 10, ds, Nat.mod_lt _ (by norm_num), by simp [h0]⟩
    · have hfuel : 0 < fuel := by
        rcases Nat.eq_zero_or_pos fuel with hf | hf
        · subst hf
          have : n < 10 := by simpa using hn
          exact absurd (Nat.div_eq_of_lt this) h0
        · exact hf
      have hdiv : n / 10 < 10 ^ fuel := by
        apply Nat.div_lt_of_lt_mul
        calc n < 10 ^ (fuel + 1) := hn
          _ = 10 * 10 ^ fuel := by ring
      obtain ⟨m, t, hm, ht⟩ := ih (n / 10) (Nat.digitChar (n % 10) :: ds) hdiv hfuel
      exact ⟨m, t, hm, by rw [if_neg h0]; exact ht⟩

theorem natRepr_head_digit (n : Nat) :
    ∃ m t, m < 10 ∧ (Nat.repr n).data = Nat.digitChar m :: t := by
  have hb : n < 10 ^ (n + 1) := by
    calc n < 10 ^ n := Nat.lt_pow_self (by norm_num) n
      _ ≤ 10 ^ (n + 1) := Nat.pow_le_pow_right (by norm_num) (Nat.le_succ n)
  obtain ⟨m, t, hm, ht⟩ := toDigitsCore_head (n + 1) n [] hb (Nat.succ_pos n)
  exact ⟨m, t, hm, ht⟩

theorem digitChar_ne_minus (m : Nat) (hm : m < 10) : Nat.digitChar m ≠ '-' := by
  interval_cases m <;> decide
theorem natRepr_data (x : Nat) : (Nat.repr x).data = Nat.toDigits 10 x := rfl

theorem intRepr_injective : Function.Injective Int.repr := by
  intro a b hab
  have hminus : "-".data = ['-'] := rfl
  match a, b, hab with
  | Int.ofNat j, Int.ofNat k, hab =>
    exact congrArg Int.ofNat (natRepr_injective hab)
  | Int.negSucc j, Int.negSucc k, hab =>
    have h1 := congrArg String.data hab
    rw [show Int.repr (Int.negSucc j) = "-" ++ Nat.repr (j + 1) from rfl,
        show Int.repr (Int.negSucc k) = "-" ++ Nat.repr (k + 1) from rfl,
        String.data_append, String.data_append, hminus, List.singleton_append,
        List.singleton_append, natRepr_data, natRepr_data] at h1
    have htail : Nat.toDigits 10 (j + 1) = Nat.toDigits 10 (k + 1) := by
      injection h1
    have hjk : j + 1 = k + 1 := by
      calc j + 1 = digitsToNat (Nat.toDigits 10 (j + 1)) := (digitsToNat_toDigits _).symm
        _ = digitsToNat (Nat.toDigits 10 (k + 1)) := by rw [htail]
        _ = k + 1 := digitsToNat_toDigits _
    exact congrArg Int.negSucc (by omega)
  | Int.ofNat j, Int.negSucc k, hab =>
    exfalso
    obtain ⟨m, t, hm, ht⟩ := natRepr_head_digit j
    have h1 := congrArg String.data hab
    rw [show Int.repr (Int.ofNat j) = Nat.repr j from rfl,
        show Int.repr (Int.negSucc k) = "-" ++ Nat.repr (k + 1) from rfl,
        String.data_append, hminus, List.singleton_append, ht] at h1
    injection h1 with hhead _
    exact digitChar_ne_minus m hm hhead
  | Int.negSucc j, Int.ofNat k, hab =>
    exfalso
    obtain ⟨m, t, hm, ht⟩ := natRepr_head_digit k
    have h1 := congrArg String.data hab.symm
    rw [show Int.repr (Int.ofNat k) = Nat.repr k from rfl,
        show Int.repr (Int.negSucc j) = "-" ++ Nat.repr (j + 1) from rfl,
        String.data_append, hminus, List.singleton_append, ht] at h1
    injection h1 with hhead _
    exact digitChar_ne_minus m hm hhead

theorem pyStr_injective : Function.Injective pyStr := fun _ _ h => intRepr_injective h

/-- C9: cross user isolation — adding a favorite for user A or removing
favorites of user A leaves the records listed for any distinct user B exactly
unchanged, and every record listed for A carries the stored id of A. -/
theorem cross_user_isolation (A B : Int) (db : List FavRecord) (L : Listing)
    (url_hash : String) (hAB : A ≠ B) :
    load_user_favorites (add_favorite db A L) B = load_user_favorites db B ∧
    load_user_favorites ((remove_favorite_by_hash db A url_hash).2) B
      = load_user_favorites db B ∧
    (∀ r ∈ load_user_favorites db A, r.user_id = pyStr A) := by
  have hs : pyStr A ≠ pyStr B := fun h => hAB (pyStr_injective h)
  refine ⟨?_, ?_, ?_⟩
  · unfold load_user_favorites add_favorite
    rw [List.filter_append]
    simp [hs]
  · rw [remove_favorite_by_hash_eq]
    show List.filter _ (List.filter _ db) = _
    rw [List.filter_filter]
    refine List.filter_congr ?_
    intro r _
    by_cases hu : r.user_id = pyStr B
    · have hnm : ¬(r.user_id = pyStr A ∧ _md5 r.url = url_hash) := by
        rintro ⟨h1, _⟩
        exact hs (h1.symm.trans hu)
      simp [hu, hnm]
      exact Or.inl fun hh => hs hh.symm
    · simp [hu]
  · intro r hr
    simp only [load_user_favorites, List.mem_filter, decide_eq_true_eq] at hr
    exact hr.2

theorem cross_user_isolation_witness :
    load_user_favorites (add_favorite [otherRec] 1 cListingB) 2
      = load_user_favorites [otherRec] 2 ∧
    load_user_favorites ((remove_favorite_by_hash [otherRec] 1 "h").2) 2
      = load_user_favorites [otherRec] 2 ∧
    (∀ r ∈ load_user_favorites [otherRec] 1, r.user_id = pyStr 1) :=
  cross_user_isolation 1 2 [otherRec] cListingB "h" (by decide)

/-- C7 counterexample: a loaded listing can carry a negative price — the float
then int coercion keeps the sign of a negative numeric price text, so the
claimed nonnegativity fails on a row whose price field is -5. -/
theorem loaded_price_negative :
    ∃ l ∈ load_listings (some [negPriceRow]), l.price < 0 := by
  decide

theorem parseSign_neg (cs : List Char) (h : (parseSign cs).1 = true) :
    cs.head? = some '-' := by
  match cs with
  | [] => simp [parseSign] at h
  | c :: rest =>
    simp only [parseSign] at h
    by_cases hc : c = '-'
    · rw [hc]
      rfl
    · rw [if_neg hc] at h
      by_cases hp : c = '+'
      · rw [if_pos hp] at h
        simp at h
      · rw [if_neg hp] at h
        simp at h

theorem pyFloatInt_neg_sign (s : String) (v : Int) (hv : pyFloatInt s = some v)
    (hneg : v < 0) : (parseSign (pyStripChars s.data)).1 = true := by
  unfold pyFloatInt at hv
  dsimp only at hv
  cases hpm : parseMantissa (parseSign (pyStripChars s.data)).2 with
  | none => rw [hpm] at hv; simp at hv
  | some trip =>
    obtain ⟨ip, fp, rest⟩ := trip
    rw [hpm] at hv
    dsimp only at hv
    cases hpe : parseExp rest with
    | none => rw [hpe] at hv; simp at hv
    | some ex =>
      rw [hpe] at hv
      dsimp only at hv
      simp only [Option.some.injEq] at hv
      cases hsg : (parseSign (pyStripChars s.data)).1 with
      | false =>
        rw [hsg] at hv
        simp only [Bool.false_eq_true, if_false] at hv
        rw [← hv] at hneg
        omega
      | true => rfl

/-- C7 amended: price parsing never lets a parse failure escape — a missing
raw value or an unparseable text yields 0 — and the parsed price is negative
only when the raw price text itself begins with a minus sign after stripping;
in particular every failure and every unsigned input yields at least 0. -/
theorem price_parse_total_and_sign (raw : Option String) :
    (∀ s, raw = some s → pyFloatInt s = none → safe_int_price raw = 0) ∧
    (raw = none → safe_int_price raw = 0) ∧
    (safe_int_price raw < 0 →
      ∃ s, raw = some s ∧ (pyStripChars s.data).head? = some '-') := by
  refine ⟨?_, ?_, ?_⟩
  · rintro s rfl hn
    simp [safe_int_price, hn]
  · rintro rfl
    rfl
  · intro hneg
    cases raw with
    | none => simp [safe_int_price] at hneg
    | some s =>
      refine ⟨s, rfl, ?_⟩
      have hneg2 : (match pyFloatInt s with | some v => v | none => (0 : Int)) < 0 := hneg
      cases hpf : pyFloatInt s with
      | none => rw [hpf] at hneg2; simp at hneg2
      | some v =>
        rw [hpf] at hneg2
        have hvneg : v < 0 := by simpa using hneg2
        exact parseSign_neg _ (pyFloatInt_neg_sign s v hpf hvneg)

theorem price_parse_total_and_sign_witness :
    safe_int_price (some "N/A") = 0 ∧
    safe_int_price none = 0 ∧
    (∃ s, some "-5" = some s ∧ (pyStripChars s.data).head? = some '-') :=
  ⟨(price_parse_total_and_sign (some "N/A")).1 "N/A" rfl (by decide),
   (price_parse_total_and_sign none).2.1 rfl,
   (price_parse_total_and_sign (some "-5")).2.2 (by decide)⟩
